import Mathlib

/-!
Verification of the Shrimp-search RAG system core against its specification.

The development shallowly embeds the Python sources:
  * `enhanced_document_manager.py` (`EnhancedDocumentManager`): the
    content-addressed document cache (hashing, cache-hit check, blob
    load/save, size-budget eviction, cache clearing, `process_document`);
  * `Enhanced_Interactive_Multimodal_RAG_v2.py` (and the identically
    structured v1 file): the vector retriever (`EnhancedVectorRetrieverV2`:
    `add_documents`, `query`), Reciprocal Rank Fusion (`_rrf_fusion`), and
    knowledge-base setup (`_setup_knowledge_base_impl`).

Modelling conventions:
  * Python dicts are insertion-ordered association lists
    (`List (String × α)`); `d[k] = v` is `dictSet` (replace in place or
    append at the end), `k in d` / `d[k]` is `alookup`.
  * The filesystem is an explicit parameter: `fs : String → Option FileStat`
    models `os.path.exists` / `os.stat`; file contents for hashing are
    `fileBytes : String → Option String` (`none` = the open/read raises).
  * Opaque external collaborators (the MD5 digest, the format-specific
    parsers, the sentence-transformers encoder, sklearn's
    `cosine_similarity`) are function parameters, as the spec declares them
    out of scope; fallible ones return `Except`/`Option`.
  * Python floats are modelled as `ℚ`; the code only ever compares, adds
    and sorts these values.
  * Python's `sorted` (stable) and NumPy's `argsort` on the small arrays
    that arise here (NumPy falls back to a stable insertion sort) are both
    modelled by Mathlib's stable `List.insertionSort`.
  * A caught-and-logged Python exception is modelled by the value the
    handler returns; an uncaught (re-raised) exception by an
    `Except.error` result or a `false` success flag paired with the
    mutated state.
-/

namespace ShrimpSearch

/-- Python-dict lookup `d.get(k)` / `d[k]` on an insertion-ordered
association list. -/
def alookup (k : String) : List (String × α) → Option α
  | [] => none
  | (k0, v) :: t => if k0 = k then some v else alookup k t

/-- Python-dict assignment `d[k] = v`: replace the value in place if the
key is present, otherwise append the new key at the end. -/
def dictSet (k : String) (v : α) : List (String × α) → List (String × α)
  | [] => [(k, v)]
  | (k0, v0) :: t => if k0 = k then (k, v) :: t else (k0, v0) :: dictSet k v t

theorem alookup_dictSet_self (k : String) (v : α) (l : List (String × α)) :
    alookup k (dictSet k v l) = some v := by
  induction l with
  | nil => simp [alookup, dictSet]
  | cons h t ih =>
    by_cases hk : h.1 = k <;> simp [alookup, dictSet, hk, ih]

theorem alookup_dictSet_ne (k k0 : String) (v : α) (l : List (String × α))
    (h : k0 ≠ k) : alookup k (dictSet k0 v l) = alookup k l := by
  induction l with
  | nil => simp [alookup, dictSet, h]
  | cons hd t ih =>
    by_cases hk : hd.1 = k0
    · simp [alookup, dictSet, hk, h, Ne.symm h]
    · by_cases hk2 : hd.1 = k <;>
        simp [alookup, dictSet, hk, hk2, ih, Ne.symm h]

theorem alookup_filter_ne_key (k k0 : String) (l : List (String × α))
    (h : k ≠ k0) :
    alookup k (l.filter (fun e => e.1 ≠ k0)) = alookup k l := by
  induction l with
  | nil => simp [alookup]
  | cons hd t ih =>
    simp only [ne_eq, decide_not] at ih ⊢
    by_cases hk : hd.1 = k0
    · have hne : hd.1 ≠ k := by rw [hk]; exact fun he => h he.symm
      simp [alookup, List.filter_cons, hk, hne, ih, Ne.symm h]
    · by_cases hk2 : hd.1 = k <;>
        simp [alookup, List.filter_cons, hk, hk2, ih, h, Ne.symm h]

theorem alookup_filter_self_key (k : String) (l : List (String × α)) :
    alookup k (l.filter (fun e => e.1 ≠ k)) = none := by
  induction l with
  | nil => simp [alookup]
  | cons hd t ih =>
    simp only [ne_eq, decide_not] at ih ⊢
    by_cases hk : hd.1 = k
    · simp [alookup, hk, ih]
    · simp [alookup, hk, ih]

/-! ## Document manager data model (`enhanced_document_manager.py`) -/

/-- Result of `os.stat`: the two fields the cache logic reads. -/
structure FileStat where
  st_size : Nat
  st_mtime : Int
deriving DecidableEq, Repr

/-- `DocumentMetadata` dataclass (lines 55-67 of
`enhanced_document_manager.py`). `processing_time` is a wall-clock float
in the source; the model carries it as a rational and `processDocument`
fills in 0, since no claim reads it. `created_at` (a `datetime.now()`
string) is likewise carried opaquely. -/
structure DocumentMetadata where
  file_path : String
  file_hash : String
  file_size : Nat
  last_modified : Int
  processing_time : ℚ
  chunk_count : Nat
  content_type : String
  format_type : String
  created_at : String
  version : String
deriving DecidableEq, Repr

/-- `DocumentChunk` dataclass (lines 69-76). Metadata values are
modelled as strings. -/
structure DocumentChunk where
  chunk_id : String
  content : String
  metadata : List (String × String)
  embedding : Option (List ℚ)
  chunk_type : String
deriving DecidableEq, Repr

/-- One pickle blob file under `cache_dir/chunks/<hash>.pkl`:
its deserialized content (`none` when `pickle.load` raises), its on-disk
size and its modification time. -/
structure Blob where
  data : Option (List DocumentChunk)
  size : Nat
  mtime : Int
deriving DecidableEq, Repr

/-- The mutable state of an `EnhancedDocumentManager`: the
`enable_cache` / `max_cache_size_mb` configuration, the in-memory
`document_index` dict, and the `chunks/` blob directory keyed by content
hash (filenames are unique; claims about the directory assume
`blobs.map (·.1)` nodup where it matters). -/
structure CacheState where
  enable_cache : Bool
  max_cache_size_mb : Nat
  document_index : List (String × DocumentMetadata)
  blobs : List (String × Blob)
deriving DecidableEq, Repr

/-- `_get_file_hash` (lines 158-168): streams the file through MD5 and
returns the hex digest; any exception is caught, logged and turned into
the empty string — the function never raises. `md5` is the opaque
digest of the readable file's bytes. -/
def getFileHash (fileBytes : String → Option String) (md5 : String → String)
    (file_path : String) : String :=
  match fileBytes file_path with
  | some bytes => md5 bytes
  | none => ""

/-- `_is_document_cached` (lines 170-195): enabled cache, path in index,
file still exists, stored mtime and size unchanged, and the blob file
named by the stored hash still on disk. -/
def isDocumentCached (fs : String → Option FileStat) (s : CacheState)
    (file_path : String) : Bool :=
  if s.enable_cache = false then false
  else
    match alookup file_path s.document_index with
    | none => false
    | some md =>
      match fs file_path with
      | none => false
      | some st =>
        if st.st_mtime ≠ md.last_modified ∨ st.st_size ≠ md.file_size then false
        else (alookup md.file_hash s.blobs).isSome

/-- `_load_cached_chunks` (lines 197-209): look the record up in the
index and unpickle its blob; every failure (missing index entry, missing
blob file, unpicklable blob) is caught and yields the empty list. -/
def loadCachedChunks (s : CacheState) (file_path : String) : List DocumentChunk :=
  match alookup file_path s.document_index with
  | none => []
  | some md =>
    match alookup md.file_hash s.blobs with
    | none => []
    | some b =>
      match b.data with
      | none => []
      | some chunks => chunks

/-- `_save_chunks_to_cache` (lines 211-232): write the pickle blob keyed
by `metadata.file_hash`, then update and persist the index. The new blob
file's on-disk size and mtime are environment-determined and passed in. -/
def saveChunksToCache (s : CacheState) (file_path : String)
    (chunks : List DocumentChunk) (metadata : DocumentMetadata)
    (blobSize : Nat) (blobMtime : Int) : CacheState :=
  if s.enable_cache = false then s
  else
    { s with
      blobs := dictSet metadata.file_hash
        { data := some chunks, size := blobSize, mtime := blobMtime } s.blobs,
      document_index := dictSet file_path metadata s.document_index }

/-- Total size of the `chunks/*.pkl` files. -/
def sumSizes (blobs : List (String × Blob)) : Nat :=
  (blobs.map (fun b => b.2.size)).sum

/-- The deletion loop of `_clean_cache` (lines 247-259): walk the files
in ascending-mtime order, deleting until the running total is within the
limit; returns the names of the deleted files. -/
def evictLoop (limit : Nat) : Nat → List (String × Blob) → List String
  | _, [] => []
  | total, f :: rest =>
    if total ≤ limit then []
    else f.1 :: evictLoop limit (total - f.2.size) rest

/-- `_clean_cache` (lines 234-262): if the summed blob size exceeds
`max_cache_size_mb * 1024 * 1024`, delete blob files oldest-mtime-first
until it does not. Only blob files are touched; `document_index` is not
consulted or updated. -/
def cleanCache (s : CacheState) : CacheState :=
  if s.enable_cache = false then s
  else
    let limit := s.max_cache_size_mb * 1024 * 1024
    let total := sumSizes s.blobs
    if limit < total then
      let sortedFiles :=
        List.insertionSort (fun a b => a.2.mtime ≤ b.2.mtime) s.blobs
      let deleted := evictLoop limit total sortedFiles
      { s with blobs := s.blobs.filter (fun b => !(deleted.contains b.1)) }
    else s

/-- `clear_cache(file_path)` for a single path (lines 940-953): if the
path is indexed, unlink the blob file named by its stored hash and
delete its index entry; otherwise do nothing. -/
def clearCache (s : CacheState) (file_path : String) : CacheState :=
  match alookup file_path s.document_index with
  | none => s
  | some md =>
    { s with
      blobs := s.blobs.filter (fun b => b.1 ≠ md.file_hash),
      document_index := s.document_index.filter (fun e => e.1 ≠ file_path) }

/-- The per-type tally built by `_detect_content_type` (lines 413-423):
a dict of counts in first-encounter order. -/
def typeCounts : List DocumentChunk → List (String × Nat) → List (String × Nat)
  | [], acc => acc
  | c :: rest, acc =>
    typeCounts rest (dictSet c.chunk_type ((alookup c.chunk_type acc).getD 0 + 1) acc)

/-- Python's `max(type_counts, key=type_counts.get)`: the first key whose
count is maximal (later keys replace it only on a strictly greater count). -/
def maxCountKey (best : String) (bc : Nat) : List (String × Nat) → String
  | [] => best
  | (k, c) :: rest => if bc < c then maxCountKey k c rest else maxCountKey best bc rest

/-- `_detect_content_type` (lines 413-423): dominant chunk type, or
"unknown" for an empty chunk list. -/
def detectContentType (chunks : List DocumentChunk) : String :=
  match typeCounts chunks [] with
  | [] => "unknown"
  | (k, c) :: rest => maxCountKey k c rest

/-- The environment a document-manager call runs in: the filesystem and
the external collaborators the spec scopes out. `parse` stands for the
extension dispatch over `supported_formats` plus the format-specific
processor (an unsupported extension or a processor failure is its
`error`). `blobSize`/`blobMtime` are the size and mtime the OS gives the
pickle blob written by `_save_chunks_to_cache`. -/
structure Env where
  fs : String → Option FileStat
  fileBytes : String → Option String
  md5 : String → String
  parse : String → Except Unit (List DocumentChunk)
  blobSize : List DocumentChunk → Nat
  blobMtime : Int
  formatType : String → String

/-- `process_document` (lines 332-380): raise if the file is missing;
serve `_load_cached_chunks` on a cache hit; otherwise parse, build the
`DocumentMetadata` record (hashing the file via `_get_file_hash`), save
chunks and record with `_save_chunks_to_cache`, run `_clean_cache`, and
return the fresh chunks. An uncaught parser exception propagates as
`Except.error`. `os.path.exists` and `os.stat` are both reads of
`env.fs`. -/
def processDocument (env : Env) (s : CacheState) (file_path : String)
    (force_reprocess : Bool) : Except Unit (List DocumentChunk) × CacheState :=
  match env.fs file_path with
  | none => (.error (), s)
  | some st =>
    if force_reprocess = false ∧ isDocumentCached env.fs s file_path then
      (.ok (loadCachedChunks s file_path), s)
    else
      match env.parse file_path with
      | .error e => (.error e, s)
      | .ok chunks =>
        let metadata : DocumentMetadata :=
          { file_path := file_path
            file_hash := getFileHash env.fileBytes env.md5 file_path
            file_size := st.st_size
            last_modified := st.st_mtime
            processing_time := 0
            chunk_count := chunks.length
            content_type := detectContentType chunks
            format_type := env.formatType file_path
            created_at := ""
            version := "1.0" }
        let s1 := saveChunksToCache s file_path chunks metadata
          (env.blobSize chunks) env.blobMtime
        (.ok chunks, cleanCache s1)

/-- `_clean_cache` never reads or writes `document_index`. -/
theorem cleanCache_document_index (s : CacheState) :
    (cleanCache s).document_index = s.document_index := by
  unfold cleanCache
  by_cases h : s.enable_cache = false
  · simp [h]
  · simp only [h, if_false]
    by_cases h2 : s.max_cache_size_mb * 1024 * 1024 < sumSizes s.blobs <;> simp [h2]

/-- A `true` cache check pins down everything it tested. -/
theorem isDocumentCached_true_elim (fs : String → Option FileStat)
    (s : CacheState) (p : String) (h : isDocumentCached fs s p = true) :
    s.enable_cache = true ∧
    ∃ md st, alookup p s.document_index = some md ∧ fs p = some st ∧
      st.st_size = md.file_size ∧ st.st_mtime = md.last_modified ∧
      (alookup md.file_hash s.blobs).isSome = true := by
  unfold isDocumentCached at h
  by_cases he : s.enable_cache = false
  · simp [he] at h
  · refine ⟨by simpa using he, ?_⟩
    simp only [he, if_false] at h
    cases hidx : alookup p s.document_index with
    | none => rw [hidx] at h; simp at h
    | some md =>
      rw [hidx] at h
      cases hfs : fs p with
      | none => rw [hfs] at h; simp at h
      | some st =>
        rw [hfs] at h
        by_cases hm : st.st_mtime ≠ md.last_modified ∨ st.st_size ≠ md.file_size
        · simp [hm] at h
        · push_neg at hm
          exact ⟨md, st, rfl, rfl, hm.2, hm.1, by simpa [hm.1, hm.2] using h⟩

/-! ## Claim C2 -/

/-- C2: with the cache enabled, `_is_document_cached` returns `true` iff
the path has an index record, the file's current size and mtime equal
the record's stored values, and the blob file named by the record's
content hash exists; consequently a check against a filesystem in which
the file's size or mtime was mutated returns `false`. -/
theorem C2_is_cached_iff (fs : String → Option FileStat) (s : CacheState)
    (p : String) (h : s.enable_cache = true) :
    (isDocumentCached fs s p = true ↔
      ∃ md st, alookup p s.document_index = some md ∧ fs p = some st ∧
        st.st_size = md.file_size ∧ st.st_mtime = md.last_modified ∧
        (alookup md.file_hash s.blobs).isSome = true) ∧
    (∀ (fs2 : String → Option FileStat) (md : DocumentMetadata) (st2 : FileStat),
      alookup p s.document_index = some md → fs2 p = some st2 →
      (st2.st_size ≠ md.file_size ∨ st2.st_mtime ≠ md.last_modified) →
      isDocumentCached fs2 s p = false) := by
  constructor
  · constructor
    · intro hc
      exact (isDocumentCached_true_elim fs s p hc).2
    · rintro ⟨md, st, hidx, hfs, hsz, hmt, hblob⟩
      unfold isDocumentCached
      simp [h, hidx, hfs, hsz, hmt, hblob]
  · intro fs2 md st2 hidx hfs hne
    unfold isDocumentCached
    simp only [h, hidx, hfs]
    simp only [ne_eq, Bool.if_false_left]
    by_cases hmt : st2.st_mtime = md.last_modified
    · by_cases hsz : st2.st_size = md.file_size
      · rcases hne with hne | hne
        · exact absurd hsz hne
        · exact absurd hmt hne
      · simp [hmt, hsz]
    · simp [hmt]

def c2Meta : DocumentMetadata :=
  { file_path := "a.txt", file_hash := "h1", file_size := 10,
    last_modified := 100, processing_time := 0, chunk_count := 1,
    content_type := "text", format_type := ".txt", created_at := "",
    version := "1.0" }

def c2State : CacheState :=
  { enable_cache := true, max_cache_size_mb := 1000,
    document_index := [("a.txt", c2Meta)],
    blobs := [("h1", { data := some [], size := 5, mtime := 100 })] }

def c2Fs : String → Option FileStat :=
  fun p => if p = "a.txt" then some { st_size := 10, st_mtime := 100 } else none

def c2FsTouched : String → Option FileStat :=
  fun p => if p = "a.txt" then some { st_size := 10, st_mtime := 101 } else none

/-- Witness for C2: a concretely cached file is reported cached, and
after its mtime changes the same check reports `false`. -/
theorem C2_witness :
    isDocumentCached c2Fs c2State "a.txt" = true ∧
    isDocumentCached c2FsTouched c2State "a.txt" = false := by
  constructor
  · exact (C2_is_cached_iff c2Fs c2State "a.txt" rfl).1.mpr
      ⟨c2Meta, { st_size := 10, st_mtime := 100 }, by decide, by decide,
        rfl, rfl, by decide⟩
  · exact (C2_is_cached_iff c2Fs c2State "a.txt" rfl).2 c2FsTouched c2Meta
      { st_size := 10, st_mtime := 101 } (by decide) (by decide)
      (Or.inr (by decide))

/-! ## Claim C9 -/

/-- C9: with the cache enabled, `_save_chunks_to_cache` followed by
`_load_cached_chunks` on the same path returns exactly the saved chunk
list (hence equal element by element in chunk id and content). -/
theorem C9_save_load_roundtrip (s : CacheState) (p : String)
    (chunks : List DocumentChunk) (md : DocumentMetadata)
    (bs : Nat) (bm : Int) (h : s.enable_cache = true) :
    loadCachedChunks (saveChunksToCache s p chunks md bs bm) p = chunks := by
  unfold saveChunksToCache loadCachedChunks
  simp [h, alookup_dictSet_self]

/-- Witness for C9 at a concrete state, path, chunk list and record. -/
theorem C9_witness :
    loadCachedChunks
      (saveChunksToCache c2State "b.txt"
        [{ chunk_id := "c1", content := "hello", metadata := [],
           embedding := none, chunk_type := "text" }] c2Meta 7 3) "b.txt" =
      [{ chunk_id := "c1", content := "hello", metadata := [],
         embedding := none, chunk_type := "text" }] :=
  C9_save_load_roundtrip c2State "b.txt" _ c2Meta 7 3 rfl

/-! ## Claim C4

The spec says a blob that fails to deserialize is treated as a cache
miss and the caller reprocesses. In the code (`_is_document_cached`
only tests that the blob file *exists*, and `_load_cached_chunks`
catches the unpickling error and returns `[]`), `process_document` takes
the cache-hit branch and returns the empty list without ever invoking
the parser. -/

def c4Chunk : DocumentChunk :=
  { chunk_id := "c4", content := "fresh", metadata := [],
    embedding := none, chunk_type := "text" }

def c4State : CacheState :=
  { enable_cache := true, max_cache_size_mb := 1000,
    document_index := [("a.txt", c2Meta)],
    blobs := [("h1", { data := none, size := 5, mtime := 100 })] }

def c4Env : Env :=
  { fs := c2Fs, fileBytes := fun _ => none, md5 := fun _ => "",
    parse := fun _ => .ok [c4Chunk], blobSize := fun _ => 1,
    blobMtime := 0, formatType := fun _ => ".txt" }

/-- Counterexample to C4: `a.txt` is cached but its blob is corrupt
(`data = none`); the parser would deliver `[c4Chunk]`, yet
`process_document` returns the degraded empty list and leaves the state
untouched — it does not reprocess. -/
theorem C4_counterexample :
    processDocument c4Env c4State "a.txt" false = (.ok [], c4State) ∧
    c4Env.parse "a.txt" = .ok [c4Chunk] ∧ [c4Chunk] ≠ ([] : List DocumentChunk) := by
  refine ⟨?_, rfl, by decide⟩
  rfl

/-- C4 as amended: when the cache check succeeds but the blob for the
cached record fails to deserialize, `_load_cached_chunks` yields `[]`
and `process_document` returns that empty chunk list with the state
unchanged — the parser is not re-invoked and no error propagates. -/
theorem C4_corrupt_blob_returns_empty (env : Env) (s : CacheState)
    (p : String) (md : DocumentMetadata) (b : Blob)
    (h1 : isDocumentCached env.fs s p = true)
    (h2 : alookup p s.document_index = some md)
    (h3 : alookup md.file_hash s.blobs = some b)
    (h4 : b.data = none) :
    loadCachedChunks s p = [] ∧
    processDocument env s p false = (.ok [], s) := by
  have hload : loadCachedChunks s p = [] := by
    unfold loadCachedChunks
    simp only [h2, h3, h4]
  refine ⟨hload, ?_⟩
  obtain ⟨-, md2, st, -, hfs, -⟩ := isDocumentCached_true_elim env.fs s p h1
  unfold processDocument
  rw [hfs]
  simp [h1, hload]

/-- Witness for C4's amended theorem at the concrete corrupt-blob state. -/
theorem C4_witness :
    loadCachedChunks c4State "a.txt" = [] ∧
    processDocument c4Env c4State "a.txt" false = (.ok [], c4State) :=
  C4_corrupt_blob_returns_empty c4Env c4State "a.txt" c2Meta
    { data := none, size := 5, mtime := 100 } (by decide) (by decide)
    (by decide) rfl

/-! ## Claim C5

The spec says an unreadable file makes the hash operation fail with an
`IOError` and that the caller then skips persisting to the cache. In the
code `_get_file_hash` catches the exception and returns `""`, and
`process_document` persists the chunks and a record whose `file_hash` is
the empty string (the blob is written as `chunks/.pkl`). -/

def c5Chunk : DocumentChunk :=
  { chunk_id := "c5", content := "body", metadata := [],
    embedding := none, chunk_type := "text" }

def c5State : CacheState :=
  { enable_cache := true, max_cache_size_mb := 1000,
    document_index := [], blobs := [] }

def c5Env : Env :=
  { fs := fun p => if p = "b.txt" then some { st_size := 4, st_mtime := 7 } else none,
    fileBytes := fun _ => none, md5 := fun b => b,
    parse := fun _ => .ok [c5Chunk], blobSize := fun _ => 1,
    blobMtime := 0, formatType := fun _ => ".txt" }

/-- Counterexample to C5: hashing the unreadable `b.txt` yields `""`
instead of raising, `process_document` succeeds, and both the chunks
(blob keyed by the empty hash) and the index record are persisted. -/
theorem C5_counterexample :
    getFileHash c5Env.fileBytes c5Env.md5 "b.txt" = "" ∧
    (processDocument c5Env c5State "b.txt" false).1 = .ok [c5Chunk] ∧
    (alookup "b.txt" (processDocument c5Env c5State "b.txt" false).2.document_index).map
      (fun md => md.file_hash) = some "" ∧
    (alookup "" (processDocument c5Env c5State "b.txt" false).2.blobs).map
      (fun b => b.data) = some (some [c5Chunk]) := by
  refine ⟨rfl, rfl, ?_, ?_⟩ <;> rfl

/-- C5 as amended: for a file that exists and parses but cannot be read
for hashing, `_get_file_hash` returns the empty string (it does not
raise), `process_document` completes successfully, and the chunks and a
record with `file_hash = ""` ARE persisted to the enabled cache. -/
theorem C5_unreadable_hash_persists (env : Env) (s : CacheState)
    (p : String) (st : FileStat) (chunks : List DocumentChunk)
    (h1 : env.fs p = some st)
    (h2 : env.fileBytes p = none)
    (h3 : env.parse p = .ok chunks)
    (h4 : s.enable_cache = true) :
    getFileHash env.fileBytes env.md5 p = "" ∧
    (processDocument env s p true).1 = .ok chunks ∧
    (alookup p (processDocument env s p true).2.document_index).map
      (fun md => md.file_hash) = some "" := by
  have hhash : getFileHash env.fileBytes env.md5 p = "" := by
    unfold getFileHash
    rw [h2]
  refine ⟨hhash, ?_, ?_⟩
  · unfold processDocument
    rw [h1, h3]
    simp
  · unfold processDocument
    rw [h1, h3]
    simp only [Bool.false_and, if_neg (by simp : ¬(true = false ∧
      isDocumentCached env.fs s p = true))]
    rw [cleanCache_document_index]
    unfold saveChunksToCache
    simp [h4, alookup_dictSet_self, hhash]

/-- Witness for C5's amended theorem at the concrete unreadable file. -/
theorem C5_witness :
    getFileHash c5Env.fileBytes c5Env.md5 "b.txt" = "" ∧
    (processDocument c5Env c5State "b.txt" true).1 = .ok [c5Chunk] ∧
    (alookup "b.txt" (processDocument c5Env c5State "b.txt" true).2.document_index).map
      (fun md => md.file_hash) = some "" :=
  C5_unreadable_hash_persists c5Env c5State "b.txt"
    { st_size := 4, st_mtime := 7 } [c5Chunk] rfl rfl rfl rfl

/-! ## Claim C10 -/

/-- C10: blobs are keyed only by content hash, so two cached paths with
equal hashes share one blob file. `clear_cache(p1)` unlinks that shared
blob (and removes only `p1`'s index entry); the next `_is_document_cached`
check for `p2` then returns `false` although `p2`'s index entry and the
file itself are untouched. -/
theorem C10_shared_blob_invalidation (fs : String → Option FileStat)
    (s : CacheState) (p1 p2 : String) (md1 md2 : DocumentMetadata)
    (h0 : p1 ≠ p2)
    (h1 : alookup p1 s.document_index = some md1)
    (h2 : alookup p2 s.document_index = some md2)
    (h3 : md1.file_hash = md2.file_hash)
    (h4 : isDocumentCached fs s p2 = true) :
    isDocumentCached fs (clearCache s p1) p2 = false ∧
    alookup p2 (clearCache s p1).document_index = some md2 := by
  have hstate : clearCache s p1 =
      { s with
        blobs := s.blobs.filter (fun b => b.1 ≠ md1.file_hash),
        document_index := s.document_index.filter (fun e => e.1 ≠ p1) } := by
    unfold clearCache
    rw [h1]
  have hidx2 : alookup p2 (clearCache s p1).document_index = some md2 := by
    rw [hstate]
    rw [alookup_filter_ne_key p2 p1 s.document_index (Ne.symm h0)]
    exact h2
  refine ⟨?_, hidx2⟩
  unfold isDocumentCached
  by_cases he : (clearCache s p1).enable_cache = false
  · simp [he]
  · simp only [he, if_false]
    rw [hidx2]
    cases hfs : fs p2 with
    | none => simp
    | some st =>
      by_cases hm : st.st_mtime ≠ md2.last_modified ∨ st.st_size ≠ md2.file_size
      · simp [hm]
      · have hblob : alookup md2.file_hash (clearCache s p1).blobs = none := by
          rw [hstate]
          simpa [h3] using alookup_filter_self_key md2.file_hash s.blobs
        simp [hm, hblob]

def c10Meta1 : DocumentMetadata :=
  { file_path := "p1.txt", file_hash := "h1", file_size := 10,
    last_modified := 100, processing_time := 0, chunk_count := 1,
    content_type := "text", format_type := ".txt", created_at := "",
    version := "1.0" }

def c10Meta2 : DocumentMetadata :=
  { file_path := "p2.txt", file_hash := "h1", file_size := 20,
    last_modified := 200, processing_time := 0, chunk_count := 1,
    content_type := "text", format_type := ".txt", created_at := "",
    version := "1.0" }

def c10State : CacheState :=
  { enable_cache := true, max_cache_size_mb := 1000,
    document_index := [("p1.txt", c10Meta1), ("p2.txt", c10Meta2)],
    blobs := [("h1", { data := some [], size := 5, mtime := 100 })] }

def c10Fs : String → Option FileStat := fun p =>
  if p = "p1.txt" then some { st_size := 10, st_mtime := 100 }
  else if p = "p2.txt" then some { st_size := 20, st_mtime := 200 }
  else none

/-- Witness for C10: two concrete paths sharing blob `h1`; clearing
`p1.txt` makes the cache check for the untouched `p2.txt` fail. -/
theorem C10_witness :
    isDocumentCached c10Fs (clearCache c10State "p1.txt") "p2.txt" = false ∧
    alookup "p2.txt" (clearCache c10State "p1.txt").document_index = some c10Meta2 :=
  C10_shared_blob_invalidation c10Fs c10State "p1.txt" "p2.txt" c10Meta1 c10Meta2
    (by decide) (by decide) (by decide) rfl (by decide)

/-! ## Claim C6 -/

/-- The deletion loop of `_clean_cache` removes a prefix of the
mtime-sorted file list, and what survives the prefix fits the budget. -/
theorem evictLoop_spec (limit : Nat) (files : List (String × Blob)) :
    ∃ j, evictLoop limit (sumSizes files) files = (files.take j).map (fun b => b.1) ∧
      sumSizes (files.drop j) ≤ limit := by
  induction files with
  | nil => exact ⟨0, rfl, by simp [sumSizes]⟩
  | cons f rest ih =>
    by_cases h : sumSizes (f :: rest) ≤ limit
    · refine ⟨0, ?_, by simpa using h⟩
      unfold evictLoop
      simp [h]
    · obtain ⟨j, hj, hb⟩ := ih
      refine ⟨j + 1, ?_, by simpa using hb⟩
      have hsum : sumSizes (f :: rest) = f.2.size + sumSizes rest := by
        simp [sumSizes]
      unfold evictLoop
      simp only [h, if_false]
      rw [hsum, Nat.add_sub_cancel_left, hj]
      simp

/-- Filtering out the names of a prefix of a name-nodup list leaves
exactly the corresponding suffix. -/
theorem filter_not_contains_prefix (l1 l2 : List (String × Blob))
    (h : ((l1 ++ l2).map (fun b => b.1)).Nodup) :
    (l1 ++ l2).filter (fun b => !((l1.map (fun b => b.1)).contains b.1)) = l2 := by
  rw [List.filter_append]
  have hd : (l1.map (fun b => b.1)).Disjoint (l2.map (fun b => b.1)) := by
    apply List.disjoint_of_nodup_append
    rw [← List.map_append]
    exact h
  have h1 : l1.filter (fun b => !((l1.map (fun b => b.1)).contains b.1)) = [] := by
    rw [List.filter_eq_nil_iff]
    intro a ha
    simp [List.mem_map_of_mem _ ha]
  have h2 : l2.filter (fun b => !((l1.map (fun b => b.1)).contains b.1)) = l2 := by
    rw [List.filter_eq_self]
    intro a ha
    have : a.1 ∉ l1.map (fun b => b.1) := by
      intro hmem
      exact hd hmem (List.mem_map_of_mem _ ha)
    simpa using this
  rw [h1, h2, List.nil_append]

/-- C6 as amended: with the cache enabled and distinct blob filenames,
`_clean_cache` leaves the `document_index` completely untouched (the
stale index entries of deleted blobs remain), brings the summed blob
size within the `max_cache_size_mb × 1024 × 1024` byte budget, and
deletes blobs oldest-modification-time-first: every deleted blob's mtime
is ≤ every surviving blob's mtime. -/
theorem C6_clean_cache (s : CacheState) (h1 : s.enable_cache = true)
    (h2 : (s.blobs.map (fun b => b.1)).Nodup) :
    (cleanCache s).document_index = s.document_index ∧
    sumSizes (cleanCache s).blobs ≤ s.max_cache_size_mb * 1024 * 1024 ∧
    ∀ d ∈ s.blobs, d.1 ∉ (cleanCache s).blobs.map (fun b => b.1) →
      ∀ r ∈ (cleanCache s).blobs, d.2.mtime ≤ r.2.mtime := by
  refine ⟨cleanCache_document_index s, ?_⟩
  by_cases htot : s.max_cache_size_mb * 1024 * 1024 < sumSizes s.blobs
  · -- eviction branch
    have hperm : (List.insertionSort (fun a b => a.2.mtime ≤ b.2.mtime) s.blobs).Perm
        s.blobs := List.perm_insertionSort _ _
    set sorted := List.insertionSort (fun a b => a.2.mtime ≤ b.2.mtime) s.blobs
      with hsorted_def
    have hsum : sumSizes sorted = sumSizes s.blobs :=
      List.Perm.sum_eq (hperm.map _)
    have hnodupS : (sorted.map (fun b => b.1)).Nodup :=
      ((hperm.map _).nodup_iff).mpr h2
    obtain ⟨j, hj, hbound⟩ := evictLoop_spec (s.max_cache_size_mb * 1024 * 1024) sorted
    have hdel : evictLoop (s.max_cache_size_mb * 1024 * 1024) (sumSizes s.blobs) sorted =
        (sorted.take j).map (fun b => b.1) := by
      rw [← hsum]; exact hj
    have hstate : (cleanCache s).blobs =
        s.blobs.filter
          (fun b => !(((sorted.take j).map (fun b => b.1)).contains b.1)) := by
      unfold cleanCache
      simp only [h1, Bool.true_eq_false, if_false, htot, if_true, ← hsorted_def, hdel]
    have hfilter_sorted :
        sorted.filter
          (fun b => !(((sorted.take j).map (fun b => b.1)).contains b.1)) =
        sorted.drop j := by
      have h0 := filter_not_contains_prefix (sorted.take j) (sorted.drop j)
        (by rw [List.take_append_drop]; exact hnodupS)
      rwa [List.take_append_drop] at h0
    have hfilter_perm : ((cleanCache s).blobs).Perm (sorted.drop j) := by
      rw [hstate, ← hfilter_sorted]
      exact (hperm.filter _).symm
    constructor
    · -- size bound
      have : sumSizes (cleanCache s).blobs = sumSizes (sorted.drop j) :=
        List.Perm.sum_eq (hfilter_perm.map _)
      rw [this]
      exact hbound
    · -- oldest-first
      intro d hd hdnot r hr
      haveI : IsTotal (String × Blob) (fun a b => a.2.mtime ≤ b.2.mtime) :=
        ⟨fun a b => le_total _ _⟩
      haveI : IsTrans (String × Blob) (fun a b => a.2.mtime ≤ b.2.mtime) :=
        ⟨fun _ _ _ hab hbc => le_trans hab hbc⟩
      have hpw : List.Pairwise (fun a b => a.2.mtime ≤ b.2.mtime) sorted :=
        List.sorted_insertionSort _ s.blobs
      have hrS : r ∈ sorted.drop j := (hfilter_perm.mem_iff).mp hr
      have hdS : d ∈ sorted := hperm.mem_iff.mpr hd
      -- d was deleted: its name is among the prefix names
      have hdel_mem : d.1 ∈ (sorted.take j).map (fun b => b.1) := by
        by_contra hcon
        apply hdnot
        have : d ∈ (cleanCache s).blobs := by
          rw [hstate]
          rw [List.mem_filter]
          exact ⟨hd, by simpa using hcon⟩
        exact List.mem_map_of_mem _ this
      obtain ⟨e, heT, he1⟩ := List.mem_map.mp hdel_mem
      have heS : e ∈ sorted := (List.take_sublist j sorted).subset heT
      have hed : e = d := List.inj_on_of_nodup_map hnodupS heS hdS he1
      have hdT : d ∈ sorted.take j := hed ▸ heT
      have hpw2 : List.Pairwise (fun a b => a.2.mtime ≤ b.2.mtime)
          (sorted.take j ++ sorted.drop j) := by
        rw [List.take_append_drop]
        exact hpw
      exact (List.pairwise_append.mp hpw2).2.2 d hdT r hrS
  · -- no eviction: state unchanged, total already within budget
    have hstate : cleanCache s = s := by
      unfold cleanCache
      simp [h1, htot]
    rw [hstate]
    refine ⟨le_of_not_lt htot, ?_⟩
    intro d hd hdnot r hr
    exact absurd (List.mem_map_of_mem _ hd) hdnot

def c6Meta1 : DocumentMetadata :=
  { file_path := "old.txt", file_hash := "h1", file_size := 10,
    last_modified := 100, processing_time := 0, chunk_count := 1,
    content_type := "text", format_type := ".txt", created_at := "",
    version := "1.0" }

def c6State : CacheState :=
  { enable_cache := true, max_cache_size_mb := 1,
    document_index := [("old.txt", c6Meta1)],
    blobs := [("h1", { data := some [], size := 1048576, mtime := 1 }),
              ("h2", { data := some [], size := 1048576, mtime := 2 })] }

/-- Counterexample to C6 as stated: the two blobs exceed the 1 MiB
budget, `_clean_cache` deletes the older blob `h1` — but the index entry
of `old.txt` (whose record names the deleted `h1`) is NOT removed; the
claim said each deleted blob's index entries are removed. -/
theorem C6_counterexample :
    (cleanCache c6State).blobs.map (fun b => b.1) = ["h2"] ∧
    alookup "old.txt" (cleanCache c6State).document_index = some c6Meta1 ∧
    c6Meta1.file_hash = "h1" := by
  refine ⟨?_, ?_, rfl⟩ <;> rfl

/-- Witness for C6's amended theorem at the concrete two-blob state. -/
theorem C6_witness :
    (cleanCache c6State).document_index = c6State.document_index ∧
    sumSizes (cleanCache c6State).blobs ≤ c6State.max_cache_size_mb * 1024 * 1024 ∧
    ∀ d ∈ c6State.blobs, d.1 ∉ (cleanCache c6State).blobs.map (fun b => b.1) →
      ∀ r ∈ (cleanCache c6State).blobs, d.2.mtime ≤ r.2.mtime :=
  C6_clean_cache c6State rfl (by decide)

/-! ## Vector retriever (`EnhancedVectorRetrieverV2`, lines 37-140 of
`Enhanced_Interactive_Multimodal_RAG_v2.py`; `EnhancedVectorRetriever`
in the v1 file is line-for-line identical in the parts modelled here) -/

/-- The four parallel containers of the retriever. `doc_embeddings`
starts as `None` and becomes a row matrix after the first successful
add (`np.vstack` appends rows). Metadata dict values are modelled as
strings. -/
structure Retriever where
  documents : List String
  doc_metadata : List (List (String × String))
  document_ids : List String
  doc_embeddings : Option (List (List ℚ))
deriving DecidableEq, Repr

/-- The opaque sentence-transformers `embedding_model.encode`: one
embedding row per input text on success, `error` when the call raises. -/
def Encoder : Type := List String → Except Unit (List (List ℚ))

def emptyRetriever : Retriever :=
  { documents := [], doc_metadata := [], document_ids := [],
    doc_embeddings := none }

/-- Number of rows of the embedding matrix (`0` while it is `None`). -/
def rowCount (r : Retriever) : Nat := (r.doc_embeddings.getD []).length

/-- `_add_documents_impl` (v2 lines 63-87, v1 lines 59-83): generate
sequential ids, extend the three list containers, then encode; on an
encoder exception the re-raise leaves the already-extended lists behind
(`false` = the call raised). On success `np.vstack` extends the matrix. -/
def addDocumentsImpl (enc : Encoder) (r : Retriever) (texts : List String)
    (metadata : List (List (String × String))) : Retriever × Bool :=
  let n := r.documents.length
  let new_ids := (List.range texts.length).map (fun i => "doc_" ++ toString (n + i))
  let documents := r.documents ++ texts
  let doc_metadata := r.doc_metadata ++ metadata
  let document_ids := r.document_ids ++ new_ids
  match enc texts with
  | .error _ => ({ r with documents, doc_metadata, document_ids }, false)
  | .ok new_embeddings =>
    let rows :=
      match r.doc_embeddings with
      | none => new_embeddings
      | some e => e ++ new_embeddings
    ({ documents, doc_metadata, document_ids, doc_embeddings := some rows }, true)

/-- `add_documents` (v2 lines 49-61): early-return on an empty text
list, otherwise `_add_documents_impl`. -/
def addDocuments (enc : Encoder) (r : Retriever) (texts : List String)
    (metadata : List (List (String × String))) : Retriever × Bool :=
  if texts.isEmpty then (r, true) else addDocumentsImpl enc r texts metadata

/-- The central VectorIndex invariant: the four parallel containers
have equal length. -/
def retrieverInv (r : Retriever) : Prop :=
  r.documents.length = r.doc_metadata.length ∧
  r.doc_metadata.length = r.document_ids.length ∧
  r.document_ids.length = rowCount r

/-- A sequence of `add_documents` calls, applied in order. -/
def applyAdds (enc : Encoder) :
    Retriever → List (List String × List (List (String × String))) → Retriever
  | r, [] => r
  | r, (texts, md) :: rest => applyAdds enc (addDocuments enc r texts md).1 rest

/-! ## Claim C1

The claim says the equal-length invariant survives every sequence of
`add_documents` calls, *including* calls in which the embedding function
raises. In the code the three list containers are extended *before*
`encode` is called, so a raising encoder leaves them longer than the
embedding matrix. -/

def encFail : Encoder := fun _ => .error ()

/-- Counterexample to C1 as stated: one `add_documents` call whose
encoder raises leaves `documents` with one entry but the embedding
matrix with zero rows — the four containers are no longer equal-length,
and the call was not all-or-nothing. -/
theorem C1_counterexample :
    (addDocuments encFail emptyRetriever ["a"] [[]]).1.documents.length = 1 ∧
    rowCount (addDocuments encFail emptyRetriever ["a"] [[]]).1 = 0 ∧
    (addDocuments encFail emptyRetriever ["a"] [[]]).2 = false := by
  refine ⟨rfl, rfl, rfl⟩

/-- One successful `add_documents` call preserves the invariant. -/
theorem addDocuments_inv_step (enc : Encoder) (r : Retriever)
    (texts : List String) (md : List (List (String × String)))
    (hEnc : ∀ ts, ∃ rows, enc ts = .ok rows ∧ rows.length = ts.length)
    (hlen : texts.length = md.length) (hr : retrieverInv r) :
    retrieverInv (addDocuments enc r texts md).1 := by
  obtain ⟨h1, h2, h3⟩ := hr
  unfold addDocuments
  by_cases he : texts.isEmpty
  · simpa [he] using ⟨h1, h2, h3⟩
  · obtain ⟨rows, hok, hrows⟩ := hEnc texts
    simp only [he, if_false]
    unfold addDocumentsImpl
    rw [hok]
    cases hemb : r.doc_embeddings with
    | none =>
      have h3n : r.document_ids.length = 0 := by
        simpa [rowCount, hemb] using h3
      refine ⟨?_, ?_, ?_⟩ <;>
        simp [retrieverInv, rowCount, hemb, h1, h2, h3n, hlen, hrows, h1 ▸ h2 ▸ h3n]
    | some e =>
      have h3s : r.document_ids.length = e.length := by
        simpa [rowCount, hemb] using h3
      refine ⟨?_, ?_, ?_⟩ <;>
        simp [retrieverInv, rowCount, hemb, h1, h2, h3s, hlen, hrows]

/-- C1 as amended: when every embedding call succeeds (returning one row
per text) and each call's text and metadata lists have equal length, the
equal-length invariant is preserved by every sequence of `add_documents`
calls, and a call with an empty text list leaves the retriever exactly
unchanged. When the embedding function raises, however, the three list
containers have already been extended while the matrix has not (see the
counterexample): the add is not all-or-nothing in that case. -/
theorem C1_invariant_on_success (enc : Encoder)
    (hEnc : ∀ ts, ∃ rows, enc ts = .ok rows ∧ rows.length = ts.length)
    (calls : List (List String × List (List (String × String))))
    (hcalls : ∀ c ∈ calls, c.1.length = c.2.length)
    (r : Retriever) (hr : retrieverInv r) :
    retrieverInv (applyAdds enc r calls) ∧
    ∀ md, addDocuments enc r [] md = (r, true) := by
  constructor
  · induction calls generalizing r with
    | nil => exact hr
    | cons c rest ih =>
      exact ih (fun d hd => hcalls d (List.mem_cons_of_mem c hd))
        (addDocuments enc r c.1 c.2).1
        (addDocuments_inv_step enc r c.1 c.2 hEnc
          (hcalls c (List.mem_cons_self c rest)) hr)
  · intro md
    unfold addDocuments
    simp

def encOk : Encoder := fun ts => .ok (ts.map (fun _ => [1]))

/-- Witness for C1's amended theorem: two successful adds on the empty
retriever keep the invariant. -/
theorem C1_witness :
    retrieverInv (applyAdds encOk emptyRetriever
      [(["a", "b"], [[("type", "text")], [("type", "text")]]),
       (["c"], [[("type", "table")]])]) ∧
    ∀ md, addDocuments encOk emptyRetriever [] md = (emptyRetriever, true) :=
  C1_invariant_on_success encOk
    (fun ts => ⟨ts.map (fun _ => [1]), rfl, by simp⟩)
    _ (by intro c hc; fin_cases hc <;> rfl)
    emptyRetriever ⟨rfl, rfl, rfl⟩

/-! ## Query path (`query` / `_query_impl`, v2 lines 89-140) -/

/-- One element of the result list `_query_impl` builds. -/
structure QueryResult where
  text : String
  similarity : ℚ
  metadata : List (String × String)
  id : String
deriving DecidableEq, Repr

/-- `metadata.get(key, default)`. -/
def metaGetD (m : List (String × String)) (k dflt : String) : String :=
  (alookup k m).getD dflt

/-- The truthiness test `if filter_type and doc_type != filter_type:
continue` — a result is kept when `filter_type` is falsy (`None` or the
empty string) or the types match. -/
def passesFilter (filter_type : Option String) (doc_type : String) : Bool :=
  match filter_type with
  | none => true
  | some ft => if ft = "" then true else decide (doc_type = ft)

/-- `np.argsort(similarities)`: indices in ascending similarity order.
On arrays of this size NumPy's sort is a stable insertion sort, so ties
keep ascending index order, modelled by Mathlib's stable
`List.insertionSort`. -/
def argsortIdx (sims : List ℚ) : List Nat :=
  List.insertionSort (fun i j => sims.getD i 0 ≤ sims.getD j 0)
    (List.range sims.length)

/-- The result-collection loop of `_query_impl` (lines 117-133): walk
the candidate indices, skip out-of-range ones and ones rejected by the
type filter, append a result dict, and break once `top_k` results are
collected (the break fires *after* the append, so `top_k = 0` still
yields one result). `count` is `len(results)` so far. -/
def collectResults (r : Retriever) (sims : List ℚ)
    (filter_type : Option String) (top_k : Nat) :
    Nat → List Nat → List QueryResult
  | _, [] => []
  | count, idx :: rest =>
    if r.documents.length ≤ idx then
      collectResults r sims filter_type top_k count rest
    else if passesFilter filter_type
        (metaGetD (r.doc_metadata.getD idx []) "type" "unknown") = false then
      collectResults r sims filter_type top_k count rest
    else
      let res : QueryResult :=
        { text := r.documents.getD idx ""
          similarity := sims.getD idx 0
          metadata := r.doc_metadata.getD idx []
          id := r.document_ids.getD idx "" }
      if top_k ≤ count + 1 then [res]
      else res :: collectResults r sims filter_type top_k (count + 1) rest

/-- `_query_impl` (lines 104-140). `cos` is the opaque composition of
`embedding_model.encode([query_text])` with sklearn's
`cosine_similarity(·, doc_embeddings)[0]` — an external floating-point
routine producing one similarity per stored row.
`np.argsort(...)[::-1][:top_k * 2]` over-fetches the `2·top_k` highest
indices, descending. -/
def queryImpl (cos : String → List (List ℚ) → List ℚ) (r : Retriever)
    (query_text : String) (top_k : Nat) (filter_type : Option String) :
    List QueryResult :=
  let sims := cos query_text (r.doc_embeddings.getD [])
  let top_indices := (argsortIdx sims).reverse.take (top_k * 2)
  collectResults r sims filter_type top_k 0 top_indices

/-- `query` (lines 89-102): empty-index guard around `_query_impl`. -/
def queryRetriever (cos : String → List (List ℚ) → List ℚ) (r : Retriever)
    (query_text : String) (top_k : Nat) (filter_type : Option String) :
    List QueryResult :=
  if r.documents.isEmpty ∨ r.doc_embeddings.isNone then []
  else queryImpl cos r query_text top_k filter_type

/-! ## Claim C7

The claim says similarity ties are resolved in favor of the
first-inserted entry. The code reverses a stable ascending argsort
(`np.argsort(similarities)[::-1]`), which puts the HIGHEST index first
among equal similarities — the last-inserted entry wins ties. -/

def c7Enc : Encoder := fun ts => .ok (ts.map (fun _ => [1]))

def c7Retriever : Retriever :=
  (addDocuments c7Enc emptyRetriever ["first", "second"]
    [[("type", "text")], [("type", "text")]]).1

def c7Cos : String → List (List ℚ) → List ℚ := fun _ _ => [1, 1]

/-- Counterexample to C7 as stated: two documents with equal similarity
1; the query returns the second-inserted `doc_1` *before* the
first-inserted `doc_0`, so ties are not resolved in favor of the
first-inserted entry. -/
theorem C7_counterexample :
    (queryRetriever c7Cos c7Retriever "q" 2 none).map (fun e => e.id) =
      ["doc_1", "doc_0"] ∧
    (queryRetriever c7Cos c7Retriever "q" 2 none).map (fun e => e.similarity) =
      [1, 1] := by
  refine ⟨rfl, rfl⟩

/-- Unfolding equation for one step of the collection loop. -/
theorem collectResults_cons (r : Retriever) (sims : List ℚ)
    (ft : Option String) (tk count idx : Nat) (rest : List Nat) :
    collectResults r sims ft tk count (idx :: rest) =
      if r.documents.length ≤ idx then
        collectResults r sims ft tk count rest
      else if passesFilter ft
          (metaGetD (r.doc_metadata.getD idx []) "type" "unknown") = false then
        collectResults r sims ft tk count rest
      else if tk ≤ count + 1 then
        [{ text := r.documents.getD idx ""
           similarity := sims.getD idx 0
           metadata := r.doc_metadata.getD idx []
           id := r.document_ids.getD idx "" }]
      else
        { text := r.documents.getD idx ""
          similarity := sims.getD idx 0
          metadata := r.doc_metadata.getD idx []
          id := r.document_ids.getD idx "" } ::
          collectResults r sims ft tk (count + 1) rest := rfl

/-- The collection loop emits at most `top_k - count` results. -/
theorem collectResults_length_le (r : Retriever) (sims : List ℚ)
    (ft : Option String) (tk : Nat) (idxs : List Nat) :
    ∀ count, count < tk →
      (collectResults r sims ft tk count idxs).length ≤ tk - count := by
  induction idxs with
  | nil => intro count h; simp [collectResults]
  | cons idx rest ih =>
    intro count hc
    rw [collectResults_cons]
    by_cases h1 : r.documents.length ≤ idx
    · rw [if_pos h1]
      exact ih count hc
    · rw [if_neg h1]
      by_cases h2 : passesFilter ft
          (metaGetD (r.doc_metadata.getD idx []) "type" "unknown") = false
      · rw [if_pos h2]
        exact ih count hc
      · rw [if_neg h2]
        by_cases h3 : tk ≤ count + 1
        · rw [if_pos h3]
          simp only [List.length_singleton]
          omega
        · rw [if_neg h3]
          simp only [List.length_cons]
          have := ih (count + 1) (by omega)
          omega

/-- Every result the loop emits passed the (truthy, non-empty) type
filter: its metadata type equals the filter string. -/
theorem collectResults_filtered (r : Retriever) (sims : List ℚ)
    (ft : String) (tk : Nat) (idxs : List Nat) (hft : ft ≠ "") :
    ∀ count, ∀ e ∈ collectResults r sims (some ft) tk count idxs,
      metaGetD e.metadata "type" "unknown" = ft := by
  induction idxs with
  | nil => intro count e he; simp [collectResults] at he
  | cons idx rest ih =>
    intro count e he
    rw [collectResults_cons] at he
    by_cases h1 : r.documents.length ≤ idx
    · rw [if_pos h1] at he
      exact ih count e he
    · rw [if_neg h1] at he
      by_cases h2 : passesFilter (some ft)
          (metaGetD (r.doc_metadata.getD idx []) "type" "unknown") = false
      · rw [if_pos h2] at he
        exact ih count e he
      · have hpass : metaGetD (r.doc_metadata.getD idx []) "type" "unknown" = ft := by
          have h2b : ¬ (if ft = "" then true
              else decide (metaGetD (r.doc_metadata.getD idx []) "type" "unknown" = ft))
                = false := h2
          rw [if_neg hft] at h2b
          have hdec : decide
              (metaGetD (r.doc_metadata.getD idx []) "type" "unknown" = ft) = true := by
            revert h2b
            cases hdq : decide
                (metaGetD (r.doc_metadata.getD idx []) "type" "unknown" = ft) <;>
              simp
          exact of_decide_eq_true hdec
        rw [if_neg h2] at he
        by_cases h3 : tk ≤ count + 1
        · rw [if_pos h3] at he
          rw [List.mem_singleton] at he
          rw [he]
          exact hpass
        · rw [if_neg h3] at he
          rw [List.mem_cons] at he
          rcases he with he | he
          · rw [he]
            exact hpass
          · exact ih (count + 1) e he

/-- The similarities of the emitted results form a sublist of the
candidate indices' similarities, in traversal order. -/
theorem collectResults_sims_sublist (r : Retriever) (sims : List ℚ)
    (ft : Option String) (tk : Nat) (idxs : List Nat) :
    ∀ count, ((collectResults r sims ft tk count idxs).map
        (fun e => e.similarity)).Sublist
      (idxs.map (fun i => sims.getD i 0)) := by
  induction idxs with
  | nil => intro count; simp [collectResults]
  | cons idx rest ih =>
    intro count
    rw [collectResults_cons]
    by_cases h1 : r.documents.length ≤ idx
    · rw [if_pos h1, List.map_cons]
      exact (ih count).cons _
    · rw [if_neg h1]
      by_cases h2 : passesFilter ft
          (metaGetD (r.doc_metadata.getD idx []) "type" "unknown") = false
      · rw [if_pos h2, List.map_cons]
        exact (ih count).cons _
      · rw [if_neg h2]
        by_cases h3 : tk ≤ count + 1
        · rw [if_pos h3]
          simp only [List.map_cons, List.map_nil]
          exact (List.nil_sublist _).cons₂ _
        · rw [if_neg h3]
          simp only [List.map_cons]
          exact (ih (count + 1)).cons₂ _

/-- The candidate index list of `_query_impl` is sorted by descending
similarity. -/
theorem top_indices_pairwise (sims : List ℚ) (k : Nat) :
    (((argsortIdx sims).reverse.take k).Pairwise
      (fun i j => sims.getD j 0 ≤ sims.getD i 0)) := by
  haveI : IsTotal Nat (fun i j => sims.getD i 0 ≤ sims.getD j 0) :=
    ⟨fun a b => le_total _ _⟩
  haveI : IsTrans Nat (fun i j => sims.getD i 0 ≤ sims.getD j 0) :=
    ⟨fun _ _ _ hab hbc => le_trans hab hbc⟩
  have hs : (argsortIdx sims).Pairwise (fun i j => sims.getD i 0 ≤ sims.getD j 0) :=
    List.sorted_insertionSort _ _
  have hrev : ((argsortIdx sims).reverse).Pairwise
      (fun i j => sims.getD j 0 ≤ sims.getD i 0) :=
    List.pairwise_reverse.mpr hs
  exact List.Pairwise.sublist (List.take_sublist k _) hrev

/-- C7 as amended: the empty index yields the empty result list (not an
error); for `top_k ≥ 1` at most `top_k` results are returned; every
result survives a truthy type filter; results are sorted by descending
similarity; but equal-similarity ties are resolved in favor of the
LAST-inserted entry (the reversed stable ascending argsort puts the
higher index first), as the concrete two-document tie shows. -/
theorem C7_query_correct :
    (∀ (cos : String → List (List ℚ) → List ℚ) (r : Retriever) qt tk ft,
      r.documents = [] → queryRetriever cos r qt tk ft = []) ∧
    (∀ (cos : String → List (List ℚ) → List ℚ) (r : Retriever) qt tk ft,
      1 ≤ tk → (queryRetriever cos r qt tk ft).length ≤ tk) ∧
    (∀ (cos : String → List (List ℚ) → List ℚ) (r : Retriever) qt tk ft,
      ft ≠ "" → ∀ e ∈ queryRetriever cos r qt tk (some ft),
        metaGetD e.metadata "type" "unknown" = ft) ∧
    (∀ (cos : String → List (List ℚ) → List ℚ) (r : Retriever) qt tk ft,
      (queryRetriever cos r qt tk ft).Pairwise
        (fun a b => b.similarity ≤ a.similarity)) ∧
    (queryRetriever c7Cos c7Retriever "q" 2 none).map (fun e => e.id) =
      ["doc_1", "doc_0"] := by
  have hquery : ∀ (cos : String → List (List ℚ) → List ℚ) (r : Retriever) qt tk ft,
      queryRetriever cos r qt tk ft = [] ∨
      queryRetriever cos r qt tk ft =
        collectResults r (cos qt (r.doc_embeddings.getD [])) ft tk 0
          ((argsortIdx (cos qt (r.doc_embeddings.getD []))).reverse.take (tk * 2)) := by
    intro cos r qt tk ft
    unfold queryRetriever
    by_cases h : r.documents.isEmpty ∨ r.doc_embeddings.isNone
    · left
      rw [if_pos h]
    · right
      rw [if_neg h]
      rfl
  refine ⟨?_, ?_, ?_, ?_, rfl⟩
  · intro cos r qt tk ft h
    unfold queryRetriever
    rw [if_pos (Or.inl (by rw [h]; rfl))]
  · intro cos r qt tk ft htk
    rcases hquery cos r qt tk ft with h | h
    · simp [h]
    · rw [h]
      have := collectResults_length_le r
        (cos qt (r.doc_embeddings.getD []))
        ft tk ((argsortIdx (cos qt (r.doc_embeddings.getD []))).reverse.take (tk * 2))
        0 (by omega)
      omega
  · intro cos r qt tk ft hft e he
    rcases hquery cos r qt tk (some ft) with h | h
    · rw [h] at he
      simp at he
    · rw [h] at he
      exact collectResults_filtered r _ ft tk _ hft 0 e he
  · intro cos r qt tk ft
    rcases hquery cos r qt tk ft with h | h
    · simp [h]
    · rw [h]
      have hsub := collectResults_sims_sublist r
        (cos qt (r.doc_embeddings.getD [])) ft tk
        ((argsortIdx (cos qt (r.doc_embeddings.getD []))).reverse.take (tk * 2)) 0
      have hpw := top_indices_pairwise (cos qt (r.doc_embeddings.getD [])) (tk * 2)
      have hmap : (((argsortIdx (cos qt (r.doc_embeddings.getD []))).reverse.take
          (tk * 2)).map (fun i => (cos qt (r.doc_embeddings.getD [])).getD i 0)).Pairwise
          (fun a b => b ≤ a) := by
        rw [List.pairwise_map]
        exact hpw
      have hout := List.Pairwise.sublist hsub hmap
      rw [List.pairwise_map] at hout
      exact hout

/-- Witness for C7's amended theorem: its clauses applied at the
concrete two-document retriever and a concrete filtered query. -/
theorem C7_witness :
    queryRetriever c7Cos emptyRetriever "q" 3 none = [] ∧
    (queryRetriever c7Cos c7Retriever "q" 1 none).length ≤ 1 ∧
    (∀ e ∈ queryRetriever c7Cos c7Retriever "q" 2 (some "text"),
      metaGetD e.metadata "type" "unknown" = "text") ∧
    (queryRetriever c7Cos c7Retriever "q" 2 none).Pairwise
      (fun a b => b.similarity ≤ a.similarity) :=
  ⟨C7_query_correct.1 c7Cos emptyRetriever "q" 3 none rfl,
   C7_query_correct.2.1 c7Cos c7Retriever "q" 1 none (by decide),
   fun e he => C7_query_correct.2.2.1 c7Cos c7Retriever "q" 2 "text"
     (by decide) e he,
   C7_query_correct.2.2.2.1 c7Cos c7Retriever "q" 2 none⟩

/-! ## Reciprocal Rank Fusion (`_rrf_fusion`, v2 lines 720-752; the v1
copy at lines 580-612 is identical) -/

/-- `doc_scores[doc_id]['score'] += rrf_score` / first insertion: the
score table is a Python dict in insertion order keyed by result id; an
existing entry keeps its first-seen `doc` dict and accumulates score, a
new entry is appended at the end. -/
def rrfBump (doc : QueryResult) (sc : ℚ) :
    List (QueryResult × ℚ) → List (QueryResult × ℚ)
  | [] => [(doc, sc)]
  | (d, s) :: t =>
    if d.id = doc.id then (d, s + sc) :: t else (d, s) :: rrfBump doc sc t

/-- The inner loop of `_rrf_fusion` over one ranked result list:
`for rank, doc in enumerate(results)` adds `1.0 / (k + rank + 1)` for
each result with a truthy (non-empty) id. -/
def rrfAddList (k : ℚ) :
    List (QueryResult × ℚ) → Nat → List QueryResult → List (QueryResult × ℚ)
  | table, _, [] => table
  | table, rank, doc :: rest =>
    if doc.id = "" then rrfAddList k table (rank + 1) rest
    else rrfAddList k (rrfBump doc (1 / (k + (rank : ℚ) + 1)) table) (rank + 1) rest

/-- `_rrf_fusion(all_results, k)`: accumulate the score table over all
result lists, then `sorted(..., key=score, reverse=True)` — Python's
sort is stable, so equal scores keep first-seen order; each output pair
is the first-seen result dict together with its `rrf_score`. -/
def rrfFusion (all_results : List (List QueryResult)) (k : ℚ) :
    List (QueryResult × ℚ) :=
  let table := all_results.foldl (fun t results => rrfAddList k t 0 results) []
  List.insertionSort (fun a b => b.2 ≤ a.2) table

/-- The spec-side contribution of one ranked list to the id's score:
`1/(k+r+1)` at each zero-based rank `r` where the id appears. -/
def rrfListContrib (k : ℚ) (id : String) : Nat → List QueryResult → ℚ
  | _, [] => 0
  | rank, doc :: rest =>
    (if doc.id = id then 1 / (k + (rank : ℚ) + 1) else 0) +
      rrfListContrib k id (rank + 1) rest

/-- The spec-side total RRF score of an id: the sum of its per-list
contributions. -/
def rrfTotalContrib (k : ℚ) (id : String) (lists : List (List QueryResult)) : ℚ :=
  (lists.map (rrfListContrib k id 0)).sum

/-- Score of an id in the accumulation table (first matching entry). -/
def scoreOf (id : String) : List (QueryResult × ℚ) → Option ℚ
  | [] => none
  | (d, s) :: t => if d.id = id then some s else scoreOf id t

theorem scoreOf_rrfBump (id : String) (doc : QueryResult) (sc : ℚ)
    (table : List (QueryResult × ℚ)) :
    scoreOf id (rrfBump doc sc table) =
      if doc.id = id then some ((scoreOf id table).getD 0 + sc)
      else scoreOf id table := by
  induction table with
  | nil =>
    by_cases h : doc.id = id <;> simp [rrfBump, scoreOf, h]
  | cons e t ih =>
    obtain ⟨d, s⟩ := e
    by_cases hd : d.id = doc.id
    · by_cases h : doc.id = id
      · simp [rrfBump, scoreOf, hd, h, hd.trans h]
      · have : ¬ d.id = id := fun hc => h (hd ▸ hc)
        simp [rrfBump, scoreOf, hd, h, this]
    · by_cases hdid : d.id = id
      · have hne : ¬ doc.id = id := fun hc => hd (hdid.trans hc.symm)
        have hne2 : ¬ id = doc.id := fun hc => hne hc.symm
        simp [rrfBump, scoreOf, hd, hdid, hne, hne2]
      · simp [rrfBump, scoreOf, hd, hdid, ih]

theorem scoreOf_rrfAddList (k : ℚ) (id : String) (hid : id ≠ "")
    (docs : List QueryResult) :
    ∀ (table : List (QueryResult × ℚ)) (rank : Nat),
      scoreOf id (rrfAddList k table rank docs) =
        match scoreOf id table with
        | some s => some (s + rrfListContrib k id rank docs)
        | none =>
          if docs.any (fun d => d.id == id) then
            some (rrfListContrib k id rank docs)
          else none := by
  induction docs with
  | nil =>
    intro table rank
    cases h : scoreOf id table <;> simp [rrfAddList, rrfListContrib, h]
  | cons doc rest ih =>
    intro table rank
    have hred : rrfAddList k table rank (doc :: rest) =
        if doc.id = "" then rrfAddList k table (rank + 1) rest
        else rrfAddList k (rrfBump doc (1 / (k + (rank : ℚ) + 1)) table)
          (rank + 1) rest := rfl
    by_cases hdoc : doc.id = ""
    · have hne : ¬ doc.id = id := fun hc => hid (hc ▸ hdoc)
      rw [hred, if_pos hdoc, ih table (rank + 1)]
      cases h : scoreOf id table <;>
        simp [rrfListContrib, hne, List.any_cons, h]
    · rw [hred, if_neg hdoc, ih _ (rank + 1), scoreOf_rrfBump]
      by_cases hd : doc.id = id
      · rw [if_pos hd]
        cases h : scoreOf id table
        · simp [rrfListContrib, hd, List.any_cons, h, add_assoc]
        · simp [rrfListContrib, hd, List.any_cons, h, add_assoc]
      · rw [if_neg hd]
        cases h : scoreOf id table <;>
          simp [rrfListContrib, hd, List.any_cons, h]

/-- A list in which the id never appears contributes nothing. -/
theorem rrfListContrib_eq_zero (k : ℚ) (id : String) (l : List QueryResult)
    (h : l.any (fun d => d.id == id) = false) :
    ∀ rank, rrfListContrib k id rank l = 0 := by
  induction l with
  | nil => intro rank; simp [rrfListContrib]
  | cons d t ih =>
    intro rank
    rw [List.any_cons] at h
    rcases Bool.or_eq_false_iff.mp h with ⟨h1, h2⟩
    have hne : ¬ d.id = id := by simpa using h1
    simp [rrfListContrib, hne, ih h2]

theorem scoreOf_rrfFold (k : ℚ) (id : String) (hid : id ≠ "")
    (lists : List (List QueryResult)) :
    ∀ table, scoreOf id
        (lists.foldl (fun t results => rrfAddList k t 0 results) table) =
      match scoreOf id table with
      | some s => some (s + rrfTotalContrib k id lists)
      | none =>
        if lists.any (fun l => l.any (fun d => d.id == id)) then
          some (rrfTotalContrib k id lists)
        else none := by
  induction lists with
  | nil =>
    intro table
    cases h : scoreOf id table <;> simp [rrfTotalContrib, h]
  | cons l ls ih =>
    intro table
    have hfold : (l :: ls).foldl (fun t results => rrfAddList k t 0 results) table =
        ls.foldl (fun t results => rrfAddList k t 0 results) (rrfAddList k table 0 l) :=
      rfl
    rw [hfold, ih, scoreOf_rrfAddList k id hid l table 0]
    have htot : rrfTotalContrib k id (l :: ls) =
        rrfListContrib k id 0 l + rrfTotalContrib k id ls := by
      simp [rrfTotalContrib]
    cases h : scoreOf id table
    · by_cases hl : l.any (fun d => d.id == id)
      · simp [hl, htot, List.any_cons, add_assoc]
      · have hz := rrfListContrib_eq_zero k id l (Bool.of_not_eq_true hl) 0
        simp [hl, htot, List.any_cons, hz]
    · simp [htot, add_assoc]

theorem scoreOf_mem (id : String) :
    ∀ (table : List (QueryResult × ℚ)) (s : ℚ), scoreOf id table = some s →
      ∃ e ∈ table, e.1.id = id ∧ e.2 = s := by
  intro table
  induction table with
  | nil => intro s h; simp [scoreOf] at h
  | cons e t ih =>
    obtain ⟨d, sc⟩ := e
    intro s h
    by_cases hd : d.id = id
    · simp only [scoreOf, hd, if_pos] at h
      exact ⟨(d, sc), List.mem_cons_self _ _, hd, by simpa using h⟩
    · simp only [scoreOf, hd, if_neg, if_false] at h
      obtain ⟨f, hf, h1, h2⟩ := ih s h
      exact ⟨f, List.mem_cons_of_mem _ hf, h1, h2⟩

def exD1 : QueryResult :=
  { text := "t1", similarity := 0, metadata := [], id := "doc1" }

def exD2 : QueryResult :=
  { text := "t2", similarity := 0, metadata := [], id := "doc2" }

def exD3 : QueryResult :=
  { text := "t3", similarity := 0, metadata := [], id := "doc3" }

/-! ## Claim C3 -/

/-- C3: RRF fusion adds `1/(60+r+1)` per zero-based rank `r`, summed
across lists per document id (every id that appears with a non-empty id
string ends up in the output with exactly its summed contribution); the
output is sorted by descending total score with ties kept in first-seen
order (Python's stable sort); on A = [doc1, doc2, doc3], B = [doc2, doc1]
the fused table is doc1 ↦ 1/61 + 1/62, doc2 ↦ 1/62 + 1/61, doc3 ↦ 1/63
in exactly that deterministic order (doc1 before doc2 by first-seen
tie-break), and doc3's score is strictly below doc1's and doc2's. -/
theorem C3_rrf_fusion :
    (∀ (lists : List (List QueryResult)) (id : String), id ≠ "" →
      (∃ l ∈ lists, ∃ d ∈ l, d.id = id) →
      ∃ e ∈ rrfFusion lists 60, e.1.id = id ∧ e.2 = rrfTotalContrib 60 id lists) ∧
    (∀ (lists : List (List QueryResult)) (k : ℚ),
      (rrfFusion lists k).Pairwise (fun a b => b.2 ≤ a.2)) ∧
    rrfFusion [[exD1, exD2, exD3], [exD2, exD1]] 60 =
      [(exD1, 1/61 + 1/62), (exD2, 1/62 + 1/61), (exD3, 1/63)] ∧
    ((rrfFusion [[exD1, exD2, exD3], [exD2, exD1]] 60).map (fun e => e.2)).getD 2 0 <
      ((rrfFusion [[exD1, exD2, exD3], [exD2, exD1]] 60).map (fun e => e.2)).getD 0 0 := by
  have hconc : rrfFusion [[exD1, exD2, exD3], [exD2, exD1]] 60 =
      [(exD1, 1/61 + 1/62), (exD2, 1/62 + 1/61), (exD3, 1/63)] := by
    norm_num [rrfFusion, rrfAddList, rrfBump, List.insertionSort,
      List.orderedInsert, exD1, exD2, exD3]
  refine ⟨?_, ?_, hconc, ?_⟩
  · intro lists id hid hocc
    have hany : lists.any (fun l => l.any (fun d => d.id == id)) = true := by
      rw [List.any_eq_true]
      obtain ⟨l, hl, d, hd, hdid⟩ := hocc
      exact ⟨l, hl, List.any_eq_true.mpr ⟨d, hd, by simp [hdid]⟩⟩
    have hsc : scoreOf id
        (lists.foldl (fun t results => rrfAddList 60 t 0 results) []) =
        some (rrfTotalContrib 60 id lists) := by
      rw [scoreOf_rrfFold 60 id hid lists []]
      simp [scoreOf, hany]
    obtain ⟨e, he, h1, h2⟩ := scoreOf_mem id _ _ hsc
    refine ⟨e, ?_, h1, h2⟩
    unfold rrfFusion
    exact (List.perm_insertionSort _ _).mem_iff.mpr he
  · intro lists k
    haveI : IsTotal (QueryResult × ℚ) (fun a b => b.2 ≤ a.2) :=
      ⟨fun a b => le_total b.2 a.2⟩
    haveI : IsTrans (QueryResult × ℚ) (fun a b => b.2 ≤ a.2) :=
      ⟨fun _ _ _ hab hbc => le_trans hbc hab⟩
    exact List.sorted_insertionSort _ _
  · rw [hconc]
    norm_num

/-- Witness for C3: the accumulation clause applied at the concrete
two-list example delivers doc3's entry with score `1/63`. -/
theorem C3_witness :
    ∃ e ∈ rrfFusion [[exD1, exD2, exD3], [exD2, exD1]] 60,
      e.1.id = "doc3" ∧
      e.2 = rrfTotalContrib 60 "doc3" [[exD1, exD2, exD3], [exD2, exD1]] :=
  C3_rrf_fusion.1 [[exD1, exD2, exD3], [exD2, exD1]] "doc3" (by decide)
    ⟨[exD1, exD2, exD3], by simp, exD3, by simp, rfl⟩

/-! ## Knowledge-base setup (`_setup_knowledge_base_impl`, v2 lines
253-344) -/

/-- The RAG-system state the setup mutates: the vector retriever, the
per-source chunk store, the initialized flag and the tracked sources. -/
structure RAGState where
  vector_retriever : Retriever
  document_chunks_store : List (String × List DocumentChunk)
  knowledge_base_initialized : Bool
  current_sources : List String
deriving DecidableEq

/-- The metadata enrichment inside the setup loop:
`enhanced_metadata = chunk.metadata.copy();
enhanced_metadata.update({'chunk_id': …, 'chunk_type': …,
'source_file': …})`. -/
def enhanceMeta (c : DocumentChunk) (source : String) : List (String × String) :=
  dictSet "source_file" source
    (dictSet "chunk_type" c.chunk_type
      (dictSet "chunk_id" c.chunk_id c.metadata))

/-- The per-source loop of `_setup_knowledge_base_impl` (lines 266-321):
a missing path is skipped, a `process_document` exception is caught and
skipped (`continue`); a successful source stores its chunks in
`document_chunks_store` and appends each chunk's content and enriched
metadata to the embedding batch. `processDoc` is `process_document`
restricted to its result (the claim is insensitive to the cache state it
threads). -/
def setupLoop (pathExists : String → Bool)
    (processDoc : String → Except Unit (List DocumentChunk)) :
    List String →
    List String × List (List (String × String)) × List (String × List DocumentChunk) →
    List String × List (List (String × String)) × List (String × List DocumentChunk)
  | [], acc => acc
  | source :: rest, (texts, metas, store) =>
    if pathExists source = false then setupLoop pathExists processDoc rest (texts, metas, store)
    else
      match processDoc source with
      | .error _ => setupLoop pathExists processDoc rest (texts, metas, store)
      | .ok chunks =>
        setupLoop pathExists processDoc rest
          (texts ++ chunks.map (fun c => c.content),
           metas ++ chunks.map (fun c => enhanceMeta c source),
           dictSet source chunks store)

/-- `_setup_knowledge_base_impl` (lines 253-344): run the per-source
loop; raise `ValueError` when no text at all was accumulated; otherwise
add everything to the retriever in one `add_documents` batch and mark
the knowledge base initialized. An encoder exception inside
`add_documents` re-raises out of the setup (leaving the partially
mutated retriever behind, per `_add_documents_impl`). -/
def setupKnowledgeBase (enc : Encoder) (pathExists : String → Bool)
    (processDoc : String → Except Unit (List DocumentChunk))
    (st : RAGState) (sources : List String) : Except Unit Unit × RAGState :=
  let acc := setupLoop pathExists processDoc sources
    ([], [], st.document_chunks_store)
  if acc.1.isEmpty then
    (.error (), { st with document_chunks_store := acc.2.2 })
  else
    match addDocuments enc st.vector_retriever acc.1 acc.2.1 with
    | (r2, true) =>
      (.ok (), { vector_retriever := r2,
                 document_chunks_store := acc.2.2,
                 knowledge_base_initialized := true,
                 current_sources := sources })
    | (r2, false) =>
      (.error (), { st with vector_retriever := r2,
                            document_chunks_store := acc.2.2 })

/-- Spec-side recomputation of the accumulated embedding batch: the
concatenated chunk contents of the surviving sources. -/
def gatherTexts (pathExists : String → Bool)
    (processDoc : String → Except Unit (List DocumentChunk)) :
    List String → List String
  | [] => []
  | source :: rest =>
    (if pathExists source then
      match processDoc source with
      | .ok chunks => chunks.map (fun c => c.content)
      | .error _ => []
    else []) ++ gatherTexts pathExists processDoc rest

/-- Spec-side recomputation of the accumulated metadata batch. -/
def gatherMetas (pathExists : String → Bool)
    (processDoc : String → Except Unit (List DocumentChunk)) :
    List String → List (List (String × String))
  | [] => []
  | source :: rest =>
    (if pathExists source then
      match processDoc source with
      | .ok chunks => chunks.map (fun c => enhanceMeta c source)
      | .error _ => []
    else []) ++ gatherMetas pathExists processDoc rest

/-- A source "produces chunks" when its path exists, `process_document`
succeeds, and the chunk list is non-empty. -/
def producesChunks (pathExists : String → Bool)
    (processDoc : String → Except Unit (List DocumentChunk))
    (source : String) : Prop :=
  pathExists source = true ∧ ∃ chunks, processDoc source = .ok chunks ∧ chunks ≠ []

theorem setupLoop_acc (pathExists : String → Bool)
    (processDoc : String → Except Unit (List DocumentChunk))
    (sources : List String) :
    ∀ texts metas store,
      setupLoop pathExists processDoc sources (texts, metas, store) =
        (texts ++ gatherTexts pathExists processDoc sources,
         metas ++ gatherMetas pathExists processDoc sources,
         (setupLoop pathExists processDoc sources (texts, metas, store)).2.2) := by
  induction sources with
  | nil => intro texts metas store; simp [setupLoop, gatherTexts, gatherMetas]
  | cons source rest ih =>
    intro texts metas store
    by_cases hp : pathExists source = false
    · have hp2 : ¬ pathExists source = true := by simp [hp]
      simp only [setupLoop, hp, if_pos, if_true, gatherTexts, gatherMetas, hp2,
        if_false, List.nil_append]
      exact ih texts metas store
    · have hp2 : pathExists source = true := by
        cases h : pathExists source
        · exact absurd h hp
        · rfl
      cases hpd : processDoc source with
      | error e =>
        simp only [setupLoop, hp, if_false, hpd, gatherTexts, gatherMetas, hp2,
          if_true, List.nil_append]
        exact ih texts metas store
      | ok chunks =>
        simp only [setupLoop, hp, if_false, hpd, gatherTexts, gatherMetas, hp2, if_true]
        have ih2 := ih (texts ++ List.map (fun c => c.content) chunks)
          (metas ++ List.map (fun c => enhanceMeta c source) chunks)
          (dictSet source chunks store)
        rw [ih2]
        simp [List.append_assoc]

/-- The accumulated text batch is empty iff no source produces chunks. -/
theorem gatherTexts_empty_iff (pathExists : String → Bool)
    (processDoc : String → Except Unit (List DocumentChunk))
    (sources : List String) :
    gatherTexts pathExists processDoc sources = [] ↔
      ∀ source ∈ sources, ¬ producesChunks pathExists processDoc source := by
  induction sources with
  | nil => simp [gatherTexts]
  | cons source rest ih =>
    simp only [gatherTexts, List.append_eq_nil, ih, List.mem_cons]
    constructor
    · rintro ⟨h1, h2⟩ s hs
      rcases hs with rfl | hs
      · rintro ⟨hp, chunks, hpd, hne⟩
        rw [if_pos hp, hpd] at h1
        exact hne (by simpa using h1)
      · exact h2 s hs
    · intro h
      refine ⟨?_, fun s hs => h s (Or.inr hs)⟩
      by_cases hp : pathExists source = true
      · cases hpd : processDoc source with
        | error e =>
          rw [if_pos hp]
        | ok chunks =>
          have hnp := h source (Or.inl rfl)
          rw [producesChunks] at hnp
          push_neg at hnp
          have hnil := hnp hp chunks hpd
          rw [if_pos hp]
          simp [hnil]
      · rw [if_neg hp]

/-! ## Claim C8 -/

/-- C8: per-source failures (missing path, parser/cache exception) are
skipped without aborting the batch; assuming the embedding call
succeeds, the setup raises iff NO source produces chunks; and when some
source does, all accumulated chunks are added to the vector index in a
single `add_documents` batch and the knowledge base becomes
initialized. -/
theorem C8_setup_error_isolation (enc : Encoder) (pathExists : String → Bool)
    (processDoc : String → Except Unit (List DocumentChunk))
    (st : RAGState) (sources : List String)
    (hEnc : ∀ ts, ∃ rows, enc ts = .ok rows ∧ rows.length = ts.length) :
    ((setupKnowledgeBase enc pathExists processDoc st sources).1 = .error () ↔
      ∀ source ∈ sources, ¬ producesChunks pathExists processDoc source) ∧
    ((∃ source ∈ sources, producesChunks pathExists processDoc source) →
      (setupKnowledgeBase enc pathExists processDoc st sources).2.vector_retriever =
        (addDocuments enc st.vector_retriever
          (gatherTexts pathExists processDoc sources)
          (gatherMetas pathExists processDoc sources)).1 ∧
      (setupKnowledgeBase enc pathExists processDoc st
        sources).2.knowledge_base_initialized = true) := by
  have hacc := setupLoop_acc pathExists processDoc sources [] []
    st.document_chunks_store
  simp only [List.nil_append] at hacc
  by_cases hempty : gatherTexts pathExists processDoc sources = []
  · -- no chunks at all: ValueError
    have hfail : (setupKnowledgeBase enc pathExists processDoc st sources).1 =
        .error () := by
      unfold setupKnowledgeBase
      rw [hacc, hempty]
      simp
    constructor
    · rw [hfail]
      simp only [true_iff]
      exact (gatherTexts_empty_iff pathExists processDoc sources).mp hempty
    · rintro ⟨source, hs, hprod⟩
      exact absurd hprod
        ((gatherTexts_empty_iff pathExists processDoc sources).mp hempty source hs)
  · -- some chunks: one successful batched add
    obtain ⟨rows, hok, -⟩ := hEnc (gatherTexts pathExists processDoc sources)
    have hadd : addDocuments enc st.vector_retriever
        (gatherTexts pathExists processDoc sources)
        (gatherMetas pathExists processDoc sources) =
        ((addDocuments enc st.vector_retriever
          (gatherTexts pathExists processDoc sources)
          (gatherMetas pathExists processDoc sources)).1, true) := by
      unfold addDocuments
      rw [if_neg (by simpa using hempty)]
      unfold addDocumentsImpl
      rw [hok]
    have hrun : setupKnowledgeBase enc pathExists processDoc st sources =
        (.ok (), { vector_retriever :=
                     (addDocuments enc st.vector_retriever
                       (gatherTexts pathExists processDoc sources)
                       (gatherMetas pathExists processDoc sources)).1,
                   document_chunks_store :=
                     (setupLoop pathExists processDoc sources
                       ([], [], st.document_chunks_store)).2.2,
                   knowledge_base_initialized := true,
                   current_sources := sources }) := by
      unfold setupKnowledgeBase
      rw [hacc]
      simp only [List.isEmpty_eq_true, hempty, if_false]
      rw [hadd]
    constructor
    · rw [hrun]
      simp only [reduceCtorEq, false_iff]
      intro hall
      exact hempty ((gatherTexts_empty_iff pathExists processDoc sources).mpr hall)
    · intro hsome
      rw [hrun]
      exact ⟨rfl, rfl⟩

def c8ProcessDoc : String → Except Unit (List DocumentChunk) := fun p =>
  if p = "good.txt" then .ok [c5Chunk]
  else if p = "bad.txt" then .error ()
  else .ok []

def c8PathExists : String → Bool := fun p => p ≠ "missing.txt"

def c8State : RAGState :=
  { vector_retriever := emptyRetriever, document_chunks_store := [],
    knowledge_base_initialized := false, current_sources := [] }

/-- Witness for C8: a batch with one failing parse, one missing path and
one good source initializes the knowledge base from the good source's
chunks in a single add. -/
theorem C8_witness :
    ((setupKnowledgeBase encOk c8PathExists c8ProcessDoc c8State
        ["bad.txt", "missing.txt", "good.txt"]).1 = .error () ↔
      ∀ source ∈ ["bad.txt", "missing.txt", "good.txt"],
        ¬ producesChunks c8PathExists c8ProcessDoc source) ∧
    ((setupKnowledgeBase encOk c8PathExists c8ProcessDoc c8State
        ["bad.txt", "missing.txt", "good.txt"]).2.vector_retriever =
      (addDocuments encOk emptyRetriever
        (gatherTexts c8PathExists c8ProcessDoc ["bad.txt", "missing.txt", "good.txt"])
        (gatherMetas c8PathExists c8ProcessDoc
          ["bad.txt", "missing.txt", "good.txt"])).1 ∧
      (setupKnowledgeBase encOk c8PathExists c8ProcessDoc c8State
        ["bad.txt", "missing.txt", "good.txt"]).2.knowledge_base_initialized = true) := by
  have h := C8_setup_error_isolation encOk c8PathExists c8ProcessDoc c8State
    ["bad.txt", "missing.txt", "good.txt"]
    (fun ts => ⟨ts.map (fun _ => [1]), rfl, by simp⟩)
  exact ⟨h.1, h.2 ⟨"good.txt", by simp, by decide, [c5Chunk], rfl, by decide⟩⟩

end ShrimpSearch
